import Mathlib

/-!
Verification of the `tomlpp` conversion layer
(`Sources/CTomlPlusPlus/include/CTomlPlusPlus.hpp` and
`Sources/CTomlPlusPlus/CTomlPlusPlus.cpp`).

The development shallowly embeds the C++ value model (`Node`, its factories
and accessors), the recursive tree converter (`convertNode`, `convertArray`,
`convertTable`) and the `parse` entry point.  The external grammar engine
(toml++, included as `toml.hpp`, not part of this repository) is modelled as
an abstract function producing either a native parse tree or a `ParseError`.

Modelling conventions:
* `size_t` indices become `Nat`; `int32_t`/`int64_t` fields become `Int`
  (the converter only copies values, it performs no arithmetic, so no
  wrap-around can occur); `double` becomes `Float` (values are only carried
  through, never computed with).
* The C++ default constructor `Node()` initialises `_type`, `_stringValue`,
  `_intValue`, `_floatValue` and `_boolValue` but leaves `_dateValue`,
  `_timeValue` and `_dateTimeValue` out of its mem-initialiser list, so those
  three members are default-initialised, i.e. their `int32_t`/`bool` fields
  hold indeterminate values.  The embedding makes those three slots
  `Option`-typed: `none` stands for "indeterminate contents, never written",
  and an accessor that reads such a slot returns `none` (in the C++ source
  that read has no defined result).
* `std::optional<Node> getTableValue` scans the key vector and returns
  `_tableValues[i]` unchecked; when `i` is past the end of the value vector
  that read is out of bounds (undefined in the source) and the embedding
  returns `none` for it.
-/

namespace Tomlpp

/-- The `DateValue` record: `{year, month, day}` as signed 32-bit integers. -/
structure DateValue where
  year : Int
  month : Int
  day : Int
deriving DecidableEq, Repr

/-- The `TimeValue` record: `{hour, minute, second, nanosecond}`. -/
structure TimeValue where
  hour : Int
  minute : Int
  second : Int
  nanosecond : Int
deriving DecidableEq, Repr

/-- The `DateTimeValue` record: date, time, offset flag and offset minutes. -/
structure DateTimeValue where
  date : DateValue
  time : TimeValue
  hasOffset : Bool
  offsetMinutes : Int
deriving DecidableEq, Repr

/-- The `ParseError` record: description plus 1-based line and column. -/
structure ParseError where
  description : String
  line : Int
  column : Int
deriving DecidableEq, Repr

/-- The `NodeType` enumeration, one tag per TOML value kind. -/
inductive NodeType where
  | none
  | string
  | integer
  | float
  | boolean
  | date
  | time
  | dateTime
  | array
  | table
deriving DecidableEq, Repr

/-- The `Node` class: a tag plus one payload slot per kind, exactly as the
flat C++ record stores them.  `dateValue`, `timeValue` and `dateTimeValue`
are `Option`-typed because `Node()` leaves them uninitialised: `none` models
the indeterminate contents of a slot never written by a factory. -/
inductive Node where
  | mk
      (type : NodeType)
      (stringValue : String)
      (intValue : Int)
      (floatValue : Float)
      (boolValue : Bool)
      (dateValue : Option DateValue)
      (timeValue : Option TimeValue)
      (dateTimeValue : Option DateTimeValue)
      (arrayValue : List Node)
      (tableKeys : List String)
      (tableValues : List Node)

/-- Projection to the `_type` member. -/
def Node.type : Node → NodeType
  | .mk t _ _ _ _ _ _ _ _ _ _ => t

/-- Projection to the `_stringValue` member. -/
def Node.stringValue : Node → String
  | .mk _ s _ _ _ _ _ _ _ _ _ => s

/-- Projection to the `_intValue` member. -/
def Node.intValue : Node → Int
  | .mk _ _ i _ _ _ _ _ _ _ _ => i

/-- Projection to the `_floatValue` member. -/
def Node.floatValue : Node → Float
  | .mk _ _ _ f _ _ _ _ _ _ _ => f

/-- Projection to the `_boolValue` member. -/
def Node.boolValue : Node → Bool
  | .mk _ _ _ _ b _ _ _ _ _ _ => b

/-- Projection to the `_dateValue` member (`none` = never initialised). -/
def Node.dateValue : Node → Option DateValue
  | .mk _ _ _ _ _ d _ _ _ _ _ => d

/-- Projection to the `_timeValue` member (`none` = never initialised). -/
def Node.timeValue : Node → Option TimeValue
  | .mk _ _ _ _ _ _ t _ _ _ _ => t

/-- Projection to the `_dateTimeValue` member (`none` = never initialised). -/
def Node.dateTimeValue : Node → Option DateTimeValue
  | .mk _ _ _ _ _ _ _ dt _ _ _ => dt

/-- Projection to the `_arrayValue` member. -/
def Node.arrayValue : Node → List Node
  | .mk _ _ _ _ _ _ _ _ a _ _ => a

/-- Projection to the `_tableKeys` member. -/
def Node.tableKeys : Node → List String
  | .mk _ _ _ _ _ _ _ _ _ k _ => k

/-- Projection to the `_tableValues` member. -/
def Node.tableValues : Node → List Node
  | .mk _ _ _ _ _ _ _ _ _ _ v => v

/-- The default constructor `Node()`: tag `None`, empty string, zero integer,
zero float, `false` boolean, empty containers; the three date/time slots are
left uninitialised (modelled `none`). -/
def Node.empty : Node :=
  .mk NodeType.none "" 0 0 false Option.none Option.none Option.none [] [] []

/-- The `getType`. -/
def Node.getType (n : Node) : NodeType := n.type

/-- The `getString`. -/
def Node.getString (n : Node) : String := n.stringValue

/-- The `getInteger`. -/
def Node.getInteger (n : Node) : Int := n.intValue

/-- The `getFloat`. -/
def Node.getFloat (n : Node) : Float := n.floatValue

/-- The `getBoolean`. -/
def Node.getBoolean (n : Node) : Bool := n.boolValue

/-- The `getDate`: returns the `_dateValue` member; on a node whose factory never
wrote that member the C++ read has indeterminate result, modelled `none`. -/
def Node.getDate (n : Node) : Option DateValue := n.dateValue

/-- The `getTime`: returns the `_timeValue` member (`none` = indeterminate). -/
def Node.getTime (n : Node) : Option TimeValue := n.timeValue

/-- The `getDateTime`: returns the `_dateTimeValue` member (`none` =
indeterminate). -/
def Node.getDateTime (n : Node) : Option DateTimeValue := n.dateTimeValue

/-- The `getArraySize`. -/
def Node.getArraySize (n : Node) : Nat := n.arrayValue.length

/-- The `getArrayElement`: bounds-checked; out of range returns `Node()`. -/
def Node.getArrayElement (n : Node) (index : Nat) : Node :=
  if h : index < n.arrayValue.length then n.arrayValue.get ⟨index, h⟩
  else Node.empty

/-- The `getTableSize`. -/
def Node.getTableSize (n : Node) : Nat := n.tableKeys.length

/-- The `getTableKey`: bounds-checked; out of range returns `""`. -/
def Node.getTableKey (n : Node) (index : Nat) : String :=
  if h : index < n.tableKeys.length then n.tableKeys.get ⟨index, h⟩
  else ""

/-- The scan loop of `getTableValue`: walk the key vector; on the first key
equal to `key` return the value at the same index.  The source reads
`_tableValues[i]` without a bounds check, so when the value vector is shorter
than the key vector that read is out of bounds (undefined behaviour in C++);
the embedding yields `none` there (`vs.head?` of an exhausted value list). -/
def tableValueScan (key : String) : List String → List Node → Option Node
  | [], _ => Option.none
  | k :: ks, vs => if k == key then vs.head? else tableValueScan key ks vs.tail

/-- The `getTableValue`: linear scan over the keys in insertion order. -/
def Node.getTableValue (n : Node) (key : String) : Option Node :=
  tableValueScan key n.tableKeys n.tableValues

/-- The `makeString`: starts from `Node()`, sets the tag and the string slot. -/
def Node.makeString (value : String) : Node :=
  .mk NodeType.string value 0 0 false Option.none Option.none Option.none [] [] []

/-- The `makeInteger`. -/
def Node.makeInteger (value : Int) : Node :=
  .mk NodeType.integer "" value 0 false Option.none Option.none Option.none [] [] []

/-- The `makeFloat`. -/
def Node.makeFloat (value : Float) : Node :=
  .mk NodeType.float "" 0 value false Option.none Option.none Option.none [] [] []

/-- The `makeBoolean`. -/
def Node.makeBoolean (value : Bool) : Node :=
  .mk NodeType.boolean "" 0 0 value Option.none Option.none Option.none [] [] []

/-- The `makeDate`: the only factory that writes `_dateValue`. -/
def Node.makeDate (value : DateValue) : Node :=
  .mk NodeType.date "" 0 0 false (Option.some value) Option.none Option.none [] [] []

/-- The `makeTime`: the only factory that writes `_timeValue`. -/
def Node.makeTime (value : TimeValue) : Node :=
  .mk NodeType.time "" 0 0 false Option.none (Option.some value) Option.none [] [] []

/-- The `makeDateTime`: the only factory that writes `_dateTimeValue`. -/
def Node.makeDateTime (value : DateTimeValue) : Node :=
  .mk NodeType.dateTime "" 0 0 false Option.none Option.none (Option.some value) [] [] []

/-- The `makeArray`. -/
def Node.makeArray (elements : List Node) : Node :=
  .mk NodeType.array "" 0 0 false Option.none Option.none Option.none elements [] []

/-- The `makeTable`: stores the two parallel vectors as given; nothing checks
that they have equal length. -/
def Node.makeTable (keys : List String) (values : List Node) : Node :=
  .mk NodeType.table "" 0 0 false Option.none Option.none Option.none [] keys values

/-! ### The native parse tree produced by the grammar engine

The grammar engine (toml++) is external to this repository; its parse tree
is modelled as the inductive `TNode`, one constructor per native node kind
tested by `convertNode`'s `is_string() .. is_table()` chain.  An array slot
is `Option TNode` because the native accessor `arr.get(i)` can yield no
element (the converter defends against that); `other` stands for any native
node kind matched by none of the explicit tests (toml++ has such a kind,
`node_type::none`). -/

/-- Native `toml::date`: the converter copies its fields, widening them to
32-bit integers. -/
structure TDate where
  year : Int
  month : Int
  day : Int
deriving DecidableEq, Repr

/-- Native `toml::time`. -/
structure TTime where
  hour : Int
  minute : Int
  second : Int
  nanosecond : Int
deriving DecidableEq, Repr

/-- Native `toml::date_time`: date, time and an optional UTC offset whose
payload is the offset in minutes (`toml::time_offset::minutes`). -/
structure TDateTime where
  date : TDate
  time : TTime
  offset : Option Int
deriving DecidableEq, Repr

/-- A native parse-tree node. -/
inductive TNode where
  | str (s : String)
  | int (v : Int)
  | flt (v : Float)
  | boolean (b : Bool)
  | date (d : TDate)
  | time (t : TTime)
  | dateTime (dt : TDateTime)
  | arr (elems : List (Option TNode))
  | table (pairs : List (String × TNode))
  | other

/-- A native top-level table, as `toml::parse` returns it: key/value pairs
in the engine's iteration order. -/
def TomlTable : Type := List (String × TNode)

mutual

/-- The `convertNode`: dispatch on the native node kind; scalars map to the
matching factory with a straight value copy; for a date-time the offset flag
and minutes come from the optional native offset; arrays and tables recurse.
The final `return Node()` fallback handles any unmatched kind.  Total by
construction (recursion descends into strict subterms). -/
def convertNode : TNode → Node
  | TNode.str s => Node.makeString s
  | TNode.int v => Node.makeInteger v
  | TNode.flt v => Node.makeFloat v
  | TNode.boolean b => Node.makeBoolean b
  | TNode.date d => Node.makeDate ⟨d.year, d.month, d.day⟩
  | TNode.time t => Node.makeTime ⟨t.hour, t.minute, t.second, t.nanosecond⟩
  | TNode.dateTime dt =>
      Node.makeDateTime
        ⟨⟨dt.date.year, dt.date.month, dt.date.day⟩,
         ⟨dt.time.hour, dt.time.minute, dt.time.second, dt.time.nanosecond⟩,
         dt.offset.isSome,
         if dt.offset.isSome then dt.offset.getD 0 else 0⟩
  | TNode.arr elems => Node.makeArray (convertElems elems)
  | TNode.table pairs => Node.makeTable (convertPairs pairs).1 (convertPairs pairs).2
  | TNode.other => Node.empty

/-- The loop of `convertArray`: for each index in order, if the native
accessor yields an element convert and append it, otherwise skip the slot. -/
def convertElems : List (Option TNode) → List Node
  | [] => []
  | Option.some e :: rest => convertNode e :: convertElems rest
  | Option.none :: rest => convertElems rest

/-- The loop of `convertTable`: push each key and each converted value onto
two parallel vectors, in the engine's iteration order. -/
def convertPairs : List (String × TNode) → List String × List Node
  | [] => ([], [])
  | (k, v) :: rest => (k :: (convertPairs rest).1, convertNode v :: (convertPairs rest).2)

end

/-- The `convertArray`: the loop plus the final `makeArray`. -/
def convertArray (elems : List (Option TNode)) : Node :=
  Node.makeArray (convertElems elems)

/-- The `convertTable`: the loop plus the final `makeTable`. -/
def convertTable (pairs : TomlTable) : Node :=
  Node.makeTable (convertPairs pairs).1 (convertPairs pairs).2

/-- The `ParseResult` record. -/
structure ParseResult where
  success : Bool
  error : Option ParseError
  root : Node

/-- A grammar engine: what `toml::parse` looks like from this layer.  It
either returns the native top-level table or throws a `toml::parse_error`
carrying a description and a 1-based begin position. -/
def Engine : Type := String → Except ParseError TomlTable

/-- The `parse`: run the engine; on a tree convert it and set `success`; on a
`parse_error` copy description/line/column into `result.error` and leave the
default-constructed root and `success = false`. -/
def parse (engine : Engine) (input : String) : ParseResult :=
  match engine input with
  | Except.ok table => ⟨true, Option.none, convertTable table⟩
  | Except.error err =>
      ⟨false, Option.some ⟨err.description, err.line, err.column⟩, Node.empty⟩

mutual

/-- Well-formedness of the parallel table vectors, recursively through the
tree: every `Table`-tagged node reachable from `n` stores key and value
sequences of equal length. -/
def Node.wfTables : Node → Bool
  | Node.mk t _ _ _ _ _ _ _ arr keys vals =>
      (!(t == NodeType.table) || (keys.length == vals.length)) &&
      Node.wfForest arr && Node.wfForest vals

/-- Well-formedness of every node in a list (array elements or table
values). -/
def Node.wfForest : List Node → Bool
  | [] => true
  | n :: rest => Node.wfTables n && Node.wfForest rest

end

/-- Modelled from the spec: the external grammar engine (toml++, not part of
this repository) reports source positions with 1-based line and column
(spec section 6: `line ≥ 1`, `column ≥ 1`). -/
def EngineReportsOneBased (engine : Engine) : Prop :=
  ∀ s e, engine s = Except.error e → 1 ≤ e.line ∧ 1 ≤ e.column

/-- Modelled from the spec: the external grammar engine accepts the empty
document and produces an empty top-level table for it (spec section 8,
"Empty document"). -/
def EngineAcceptsEmpty (engine : Engine) : Prop :=
  engine "" = Except.ok []

/-! ### Helper lemmas -/

/-- The key component built by the `convertTable` loop is the list of native
keys in iteration order. -/
theorem convertPairs_fst (pairs : List (String × TNode)) :
    (convertPairs pairs).1 = pairs.map Prod.fst := by
  induction pairs with
  | nil => simp [convertPairs]
  | cons p rest ih => cases p with | mk k v => simp [convertPairs, ih]

/-- The value component built by the `convertTable` loop is the pointwise
conversion of the native values in iteration order. -/
theorem convertPairs_snd (pairs : List (String × TNode)) :
    (convertPairs pairs).2 = pairs.map (fun p => convertNode p.2) := by
  induction pairs with
  | nil => simp [convertPairs]
  | cons p rest ih => cases p with | mk k v => simp [convertPairs, ih]

/-- The `convertArray` loop keeps exactly the populated slots, in order,
converting each. -/
theorem convertElems_eq (elems : List (Option TNode)) :
    convertElems elems = (elems.filterMap (fun o => o)).map convertNode := by
  induction elems with
  | nil => simp [convertElems]
  | cons o rest ih => cases o <;> simp [convertElems, ih]

/-- On a gap-free native array the `convertArray` loop is a pointwise map. -/
theorem convertElems_map_some (elems : List TNode) :
    convertElems (elems.map Option.some) = elems.map convertNode := by
  induction elems with
  | nil => simp [convertElems]
  | cons e rest ih => simp [convertElems, ih]

/-! ### Claims -/

/-- C1: the claim states that every accessor for a non-matching tag returns
a type-appropriate zero/empty default, in particular that `getDate()`,
`getTime()` and `getDateTime()` on a non-matching node return all-zero
records.  The code contradicts this: the default constructor `Node()`
initialises `_stringValue`, `_intValue`, `_floatValue` and `_boolValue` but
leaves `_dateValue`, `_timeValue` and `_dateTimeValue` out of its
mem-initialiser list, so on a String node those three members hold
indeterminate values (modelled `Option.none`), not all-zero records.  The
scalar defaults the claim cites do hold (`getInteger` on a String node is
`0`, `getString` on an Integer node is `""`), and the matching accessor
returns the supplied value. -/
theorem claim_C1_wrong_tag_defaults :
    (Node.makeString "x").getDate = Option.none ∧
    (Node.makeString "x").getTime = Option.none ∧
    (Node.makeString "x").getDateTime = Option.none ∧
    (Node.makeString "x").getDate ≠ Option.some ⟨0, 0, 0⟩ ∧
    (Node.makeString "x").getInteger = 0 ∧
    (Node.makeInteger 7).getString = "" ∧
    (Node.makeString "x").getString = "x" ∧
    (Node.makeInteger 7).getInteger = 7 := by
  refine ⟨rfl, rfl, rfl, ?_, rfl, rfl, rfl, rfl⟩
  decide

/-- C3: on every node, whatever its tag, `getArrayElement` at an index at or
past the array size returns the default-constructed empty node (tag `None`),
and `getTableKey` at an index at or past the table size returns the empty
string; both accessors are total functions. -/
theorem claim_C3_out_of_range_defaults (n : Node) (i : Nat) :
    (n.getArraySize ≤ i →
      n.getArrayElement i = Node.empty ∧
      (n.getArrayElement i).getType = NodeType.none) ∧
    (n.getTableSize ≤ i → n.getTableKey i = "") := by
  constructor
  · intro h
    have hlt : ¬ i < n.arrayValue.length := by
      simp [Node.getArraySize] at h
      omega
    simp [Node.getArrayElement, hlt, Node.getType, Node.empty, Node.type]
  · intro h
    have hlt : ¬ i < n.tableKeys.length := by
      simp [Node.getTableSize] at h
      omega
    simp [Node.getTableKey, hlt]

/-- Witness for C3 at a concrete node and index. -/
theorem claim_C3_witness :
    (Node.makeArray [Node.makeInteger 7]).getArraySize ≤ 5 ∧
    (Node.makeArray [Node.makeInteger 7]).getArrayElement 5 = Node.empty ∧
    (Node.makeArray [Node.makeInteger 7]).getTableKey 0 = "" := by
  have h1 : (Node.makeArray [Node.makeInteger 7]).getArraySize ≤ 5 := by decide
  have h2 : (Node.makeArray [Node.makeInteger 7]).getTableSize ≤ 0 := by decide
  exact ⟨h1,
    ((claim_C3_out_of_range_defaults (Node.makeArray [Node.makeInteger 7]) 5).1 h1).1,
    (claim_C3_out_of_range_defaults (Node.makeArray [Node.makeInteger 7]) 0).2 h2⟩

/-- C4: converting a native date-time node with a UTC offset of `m` minutes
yields a DateTime node whose stored record has `hasOffset = true` and
`offsetMinutes = m` (negative values preserved); converting one without an
offset yields `hasOffset = false` and `offsetMinutes = 0`.  Date and time
components are copied verbatim in both cases. -/
theorem claim_C4_offset_handling (d : TDate) (t : TTime) (off : Option Int) :
    (∀ m : Int, off = Option.some m →
      (convertNode (TNode.dateTime ⟨d, t, off⟩)).getDateTime =
        Option.some ⟨⟨d.year, d.month, d.day⟩,
          ⟨t.hour, t.minute, t.second, t.nanosecond⟩, true, m⟩) ∧
    (off = Option.none →
      (convertNode (TNode.dateTime ⟨d, t, off⟩)).getDateTime =
        Option.some ⟨⟨d.year, d.month, d.day⟩,
          ⟨t.hour, t.minute, t.second, t.nanosecond⟩, false, 0⟩) := by
  constructor
  · intro m hm
    subst hm
    simp [convertNode, Node.makeDateTime, Node.getDateTime, Node.dateTimeValue]
  · intro hn
    subst hn
    simp [convertNode, Node.makeDateTime, Node.getDateTime, Node.dateTimeValue]

/-- Witness for C4 at the spec's example: 1979-05-27T07:32:00-07:00, whose
offset is -420 minutes, and the same instant without an offset. -/
theorem claim_C4_witness :
    (convertNode (TNode.dateTime ⟨⟨1979, 5, 27⟩, ⟨7, 32, 0, 0⟩, Option.some (-420)⟩)).getDateTime =
      Option.some ⟨⟨1979, 5, 27⟩, ⟨7, 32, 0, 0⟩, true, -420⟩ ∧
    (convertNode (TNode.dateTime ⟨⟨1979, 5, 27⟩, ⟨7, 32, 0, 0⟩, Option.none⟩)).getDateTime =
      Option.some ⟨⟨1979, 5, 27⟩, ⟨7, 32, 0, 0⟩, false, 0⟩ := by
  exact ⟨(claim_C4_offset_handling ⟨1979, 5, 27⟩ ⟨7, 32, 0, 0⟩ (Option.some (-420))).1 (-420) rfl,
    (claim_C4_offset_handling ⟨1979, 5, 27⟩ ⟨7, 32, 0, 0⟩ Option.none).2 rfl⟩

/-- C6: the tree conversion is a total function (`convertNode` is accepted
by Lean's termination checker, so it terminates on every native tree and
never fails); the array case keeps exactly the populated slots, silently
skipping every index whose native accessor yields no element; and any native
node kind not matched by the explicit cases converts to the
default-constructed empty node with tag `None`. -/
theorem claim_C6_conversion_total :
    (∀ elems : List (Option TNode),
      (convertNode (TNode.arr elems)).arrayValue =
        (elems.filterMap (fun o => o)).map convertNode) ∧
    convertNode TNode.other = Node.empty ∧
    (convertNode TNode.other).getType = NodeType.none := by
  refine ⟨?_, rfl, rfl⟩
  intro elems
  simp [convertNode, Node.makeArray, Node.arrayValue, convertElems_eq]

/-- C5: conversion preserves source order.  For a native table, position `i`
of the converted node holds the `i`-th native key (via `getTableKey`) and
the conversion of the `i`-th native value (in the parallel value vector);
for a gap-free native array, `getArrayElement i` is the conversion of the
`i`-th native element. -/
theorem claim_C5_order_preservation (pairs : List (String × TNode))
    (elems : List TNode) (i : Nat) (hp : i < pairs.length) (he : i < elems.length) :
    (convertTable pairs).getTableKey i = (pairs.get ⟨i, hp⟩).1 ∧
    (convertTable pairs).tableValues[i]? =
      Option.some (convertNode (pairs.get ⟨i, hp⟩).2) ∧
    (convertArray (elems.map Option.some)).getArrayElement i =
      convertNode (elems.get ⟨i, he⟩) := by
  refine ⟨?_, ?_, ?_⟩
  · have hk : (convertTable pairs).tableKeys = pairs.map Prod.fst := by
      simp [convertTable, Node.makeTable, Node.tableKeys, convertPairs_fst]
    have hlt : i < ((convertTable pairs).tableKeys).length := by
      rw [hk]; simpa using hp
    simp [Node.getTableKey, hlt, hk, hp]
  · have hv : (convertTable pairs).tableValues =
        pairs.map (fun p => convertNode p.2) := by
      simp [convertTable, Node.makeTable, Node.tableValues, convertPairs_snd]
    rw [hv]
    simp [List.getElem?_map, hp, List.getElem?_eq_getElem]
  · have ha : (convertArray (elems.map Option.some)).arrayValue =
        elems.map convertNode := by
      simp [convertArray, Node.makeArray, Node.arrayValue, convertElems_map_some]
    have hlt : i < ((convertArray (elems.map Option.some)).arrayValue).length := by
      rw [ha]; simpa using he
    simp [Node.getArrayElement, hlt, ha, he]

/-- Witness for C5 on the spec's examples, the table a=1, b=2, c=3 and the
array 3, 1, 2, at position 1. -/
theorem claim_C5_witness :
    (convertTable [("a", TNode.int 1), ("b", TNode.int 2), ("c", TNode.int 3)]).getTableKey 1 = "b" ∧
    (convertTable [("a", TNode.int 1), ("b", TNode.int 2), ("c", TNode.int 3)]).tableValues[1]? =
      Option.some (convertNode (TNode.int 2)) ∧
    (convertArray [Option.some (TNode.int 3), Option.some (TNode.int 1),
      Option.some (TNode.int 2)]).getArrayElement 1 = convertNode (TNode.int 1) := by
  have h := claim_C5_order_preservation
    [("a", TNode.int 1), ("b", TNode.int 2), ("c", TNode.int 3)]
    [TNode.int 3, TNode.int 1, TNode.int 2] 1 (by decide) (by decide)
  exact ⟨h.1, h.2.1, h.2.2⟩

/-- C2: for every input text (and any behaviour of the external grammar
engine), the returned `ParseResult` satisfies exactly one of the two
alternatives: an error is present exactly when `success` is false, and when
`success` is true the error is absent and the root is a populated
Table-tagged node. -/
theorem claim_C2_result_exclusive (engine : Engine) (input : String) :
    (((parse engine input).error.isSome = true) ↔
      ((parse engine input).success = false)) ∧
    ((parse engine input).success = true →
      (parse engine input).error = Option.none ∧
      (parse engine input).root.getType = NodeType.table) := by
  cases hE : engine input with
  | ok table =>
      simp [parse, hE, convertTable, Node.makeTable, Node.getType, Node.type]
  | error err =>
      simp [parse, hE]

/-- Witness for C2 at a concrete engine and input. -/
theorem claim_C2_witness :
    (parse (fun _ => Except.ok [] : Engine) "x").success = true ∧
    (parse (fun _ => Except.ok [] : Engine) "x").error = Option.none ∧
    (parse (fun _ => Except.ok [] : Engine) "x").root.getType = NodeType.table := by
  have h := (claim_C2_result_exclusive (fun _ => Except.ok [] : Engine) "x").2 rfl
  exact ⟨rfl, h.1, h.2⟩

/-- C8: assuming the engine's documented one-based positions (spec-modelled,
the engine is external), `parse` returns `success = true` with a
Table-tagged root whenever the engine recognises the text, and on a grammar
failure returns `success = false` with a populated error copying the
engine's description and its line and column, both at least 1. -/
theorem claim_C8_totality (engine : Engine) (input : String)
    (hpos : EngineReportsOneBased engine) :
    (∀ tb, engine input = Except.ok tb →
      (parse engine input).success = true ∧
      (parse engine input).root.getType = NodeType.table) ∧
    (∀ e, engine input = Except.error e →
      (parse engine input).success = false ∧
      (parse engine input).error = Option.some ⟨e.description, e.line, e.column⟩ ∧
      1 ≤ e.line ∧ 1 ≤ e.column) := by
  constructor
  · intro tb hE
    simp [parse, hE, convertTable, Node.makeTable, Node.getType, Node.type]
  · intro e hE
    have hp := hpos input e hE
    simp [parse, hE, hp.1, hp.2]

/-- Witness for C8 at a concrete failing engine and input. -/
theorem claim_C8_witness :
    (parse (fun _ => Except.error ⟨"unexpected end of input", 2, 5⟩ : Engine) "k").success = false ∧
    (parse (fun _ => Except.error ⟨"unexpected end of input", 2, 5⟩ : Engine) "k").error =
      Option.some ⟨"unexpected end of input", 2, 5⟩ ∧
    (parse (fun _ => Except.ok [] : Engine) "t = 1").success = true := by
  have hpos : EngineReportsOneBased
      (fun _ => Except.error ⟨"unexpected end of input", 2, 5⟩ : Engine) := by
    intro s e h
    cases h
    exact ⟨by decide, by decide⟩
  have h := (claim_C8_totality
    (fun _ => Except.error ⟨"unexpected end of input", 2, 5⟩ : Engine) "k" hpos).2
    ⟨"unexpected end of input", 2, 5⟩ rfl
  have hok : EngineReportsOneBased (fun _ => Except.ok [] : Engine) := by
    intro s e h
    cases h
  have h2 := (claim_C8_totality (fun _ => Except.ok [] : Engine) "t = 1" hok).1 [] rfl
  exact ⟨h.1, h.2.1, h2.1⟩

/-- C9: assuming the engine accepts the empty document with an empty table
(spec-modelled, the engine is external), `parse ""` succeeds and its root is
a Table-tagged node with `getTableSize = 0`. -/
theorem claim_C9_empty_document (engine : Engine) (h : EngineAcceptsEmpty engine) :
    (parse engine "").success = true ∧
    (parse engine "").root.getType = NodeType.table ∧
    (parse engine "").root.getTableSize = 0 := by
  simp [parse, h, EngineAcceptsEmpty] at *
  simp [parse, h, convertTable, convertPairs, Node.makeTable, Node.getType,
    Node.type, Node.getTableSize, Node.tableKeys]

/-- Witness for C9 at a concrete engine accepting the empty document. -/
theorem claim_C9_witness :
    (parse (fun _ => Except.ok [] : Engine) "").success = true ∧
    (parse (fun _ => Except.ok [] : Engine) "").root.getTableSize = 0 := by
  have h := claim_C9_empty_document (fun _ => Except.ok [] : Engine) rfl
  exact ⟨h.1, h.2.2⟩

/-- The scan of `getTableValue` never returns a value when the key is absent,
and when the key vector is no longer than the value vector it returns the
value zipped with the first matching key. -/
theorem tableValueScan_eq_find (key : String) (ks : List String) (vs : List Node)
    (h : ks.length ≤ vs.length) :
    tableValueScan key ks vs =
      (((ks.zip vs).find? (fun p => p.1 == key)).map Prod.snd) := by
  induction ks generalizing vs with
  | nil => simp [tableValueScan]
  | cons k ks ih =>
      cases vs with
      | nil => simp at h
      | cons v vs =>
          have h2 : ks.length ≤ vs.length := by simpa using h
          by_cases hk : k = key
          · simp [tableValueScan, hk]
          · simp [tableValueScan, hk, ih vs h2]

/-- The scan of `getTableValue` comes back empty exactly when the key is
absent, provided the key vector is no longer than the value vector. -/
theorem tableValueScan_none_iff (key : String) (ks : List String) (vs : List Node)
    (h : ks.length ≤ vs.length) :
    (tableValueScan key ks vs = Option.none) ↔ key ∉ ks := by
  induction ks generalizing vs with
  | nil => simp [tableValueScan]
  | cons k ks ih =>
      cases vs with
      | nil => simp at h
      | cons v vs =>
          have h2 : ks.length ≤ vs.length := by simpa using h
          by_cases hk : k = key
          · simp [tableValueScan, hk]
          · simp [tableValueScan, hk, ih vs h2, Ne.symm hk]

/-- C7 counterexample: the claim quantifies over every `Node`, but the
public factory `makeTable` accepts parallel vectors of unequal length.  On
`makeTable(["a"], {})` the key `"a"` is among the table keys, yet the lookup
cannot return a paired value: the source's unchecked `_tableValues[i]` read
is past the end of the empty value vector (undefined behaviour, modelled as
an absent result), so the claimed "absent iff key not among the keys" fails
at this input. -/
theorem claim_C7_counterexample :
    (Node.makeTable ["a"] []).getTableValue "a" = Option.none ∧
    "a" ∈ (Node.makeTable ["a"] []).tableKeys := by
  constructor
  · rfl
  · simp [Node.makeTable, Node.tableKeys]

/-- C7 as amended: for every `Node` whose key vector is no longer than its
value vector (which every converter-produced table satisfies),
`getTableValue` returns an absent result iff the key is not among the table
keys, and otherwise returns the value paired with the first occurrence of
the key in insertion order (the first match of a linear scan). -/
theorem claim_C7_amended_lookup (n : Node)
    (h : n.tableKeys.length ≤ n.tableValues.length) (key : String) :
    (n.getTableValue key = Option.none ↔ key ∉ n.tableKeys) ∧
    n.getTableValue key =
      (((n.tableKeys.zip n.tableValues).find? (fun p => p.1 == key)).map Prod.snd) := by
  exact ⟨tableValueScan_none_iff key n.tableKeys n.tableValues h,
    tableValueScan_eq_find key n.tableKeys n.tableValues h⟩

/-- Witness for the amended C7 at a concrete table. -/
theorem claim_C7_witness :
    (Node.makeTable ["a"] [Node.makeInteger 1]).getTableValue "c" = Option.none ∧
    (Node.makeTable ["a"] [Node.makeInteger 1]).getTableValue "a" =
      Option.some (Node.makeInteger 1) := by
  constructor
  · exact (claim_C7_amended_lookup (Node.makeTable ["a"] [Node.makeInteger 1])
      (by decide) "c").1.mpr (by decide)
  · exact ((claim_C7_amended_lookup (Node.makeTable ["a"] [Node.makeInteger 1])
      (by decide) "a").2).trans rfl

/-- Every converted native node satisfies the reachable-table
well-formedness predicate: the converter appends one key and one converted
value per native pair, so the parallel vectors always have equal length. -/
theorem convertNode_wfTables : ∀ t : TNode, (convertNode t).wfTables = true := by
  refine convertNode.induct
    (fun t => (convertNode t).wfTables = true)
    (fun pairs => (convertPairs pairs).1.length = (convertPairs pairs).2.length ∧
      Node.wfForest (convertPairs pairs).2 = true)
    (fun elems => Node.wfForest (convertElems elems) = true)
    ?_ ?_ ?_ ?_ ?_ ?_ ?_ ?_ ?_ ?_ ?_ ?_ ?_ ?_ ?_
  · intro s; rfl
  · intro v; rfl
  · intro v; rfl
  · intro b; rfl
  · intro d; rfl
  · intro t; rfl
  · intro dt; rfl
  · intro elems h3
    simp [convertNode, Node.makeArray, Node.wfTables, Node.wfForest, h3]
  · intro pairs h2
    simp [convertNode, Node.makeTable, Node.wfTables, Node.wfForest, h2.1, h2.2]
  · rfl
  · rfl
  · intro e rest h1 h3
    simp [convertElems, Node.wfForest, h1, h3]
  · intro rest h3
    simp [convertElems, h3]
  · exact ⟨rfl, rfl⟩
  · intro k v rest h2 h1
    refine ⟨?_, ?_⟩
    · simp [convertPairs, h2.1]
    · simp [convertPairs, Node.wfForest, h1, h2.2]

/-- C10: every `Table` node reachable from the root of a successful parse
stores key and value vectors of equal length (`makeTable` itself does not
enforce this; the converter establishes it by appending one key and one
converted value per native pair).  Consequently, on any well-formed
Table-tagged node `getTableSize` equals the number of stored values, and a
lookup of a key that is present always finds a stored value, i.e.
`getTableValue` never has to read past the end of the value vector. -/
theorem claim_C10_reachable_tables_wf (engine : Engine) (input : String)
    (h : (parse engine input).success = true) :
    (parse engine input).root.wfTables = true ∧
    (∀ n : Node, n.wfTables = true → n.getType = NodeType.table →
      n.getTableSize = n.tableValues.length) ∧
    (∀ (n : Node) (key : String), n.wfTables = true →
      n.getType = NodeType.table → key ∈ n.tableKeys →
      (n.getTableValue key).isSome = true) := by
  refine ⟨?_, ?_, ?_⟩
  · cases hE : engine input with
    | ok table =>
        have hconv : convertTable table = convertNode (TNode.table table) := rfl
        simp [parse, hE, hconv, convertNode_wfTables]
    | error err => simp [parse, hE] at h
  · intro n hwf htag
    cases n with
    | mk t s iv fv bv dv tv dtv arr keys vals =>
        simp [Node.getType, Node.type] at htag
        simp [Node.wfTables, htag, Bool.and_eq_true] at hwf
        simpa [Node.getTableSize, Node.tableKeys, Node.tableValues] using hwf.1.1
  · intro n key hwf htag hmem
    cases n with
    | mk t s iv fv bv dv tv dtv arr keys vals =>
        simp [Node.getType, Node.type] at htag
        simp [Node.wfTables, htag, Bool.and_eq_true] at hwf
        have hlen : keys.length ≤ vals.length := le_of_eq hwf.1.1
        have hne : tableValueScan key keys vals ≠ Option.none := by
          intro hnone
          exact ((tableValueScan_none_iff key keys vals hlen).mp hnone)
            (by simpa [Node.tableKeys] using hmem)
        simp [Node.getTableValue, Node.tableKeys, Node.tableValues]
        simpa [Option.isSome_iff_ne_none] using hne

/-- Witness for C10 at a concrete successful parse. -/
theorem claim_C10_witness :
    (parse (fun _ => Except.ok [("k", TNode.int 1)] : Engine) "k = 1").root.wfTables = true ∧
    (parse (fun _ => Except.ok [("k", TNode.int 1)] : Engine) "k = 1").root.getTableSize =
      (parse (fun _ => Except.ok [("k", TNode.int 1)] : Engine) "k = 1").root.tableValues.length := by
  have h := claim_C10_reachable_tables_wf
    (fun _ => Except.ok [("k", TNode.int 1)] : Engine) "k = 1" rfl
  refine ⟨h.1, ?_⟩
  exact h.2.1 _ h.1 rfl

end Tomlpp
